/-
  Verification of the SBI statement parser (parse_sbi_statement.py,
  verify_extraction.py) against its specification.

  The Python source is shallowly embedded: PDF cells are `Option String`
  (pdfplumber cells can be `None`), rows are cell lists, a pdfplumber page
  is its extracted text plus its extracted tables, and a document is the
  page list.  Python string operations (strip, split, replace, regular
  expressions used by the source, float("...") acceptance) are modelled
  character-exactly on `List Char`, restricted to ASCII text (the
  statements the parser targets are ASCII).  CPython floats are modelled
  as exact rationals: the arithmetic in verify_balance_chain is carried
  out in `ℚ`, with Python's `round(x, 2)` as round-half-to-even at two
  decimals.  Errors raised by parse_pdf become an `Except` value.
-/
import Mathlib

namespace SBIStatement

/-! ### Character classes (ASCII fragments of Python's str semantics) -/

/-- Python whitespace for `str.strip`, `str.split()` and the regex class
`\s`, restricted to ASCII. -/
def isSpace (c : Char) : Bool :=
  c = ' ' || c = '\t' || c = '\n' || c = '\r' || c = '\x0b' || c = '\x0c'

/-- ASCII decimal digit, the regex class `\d` on ASCII text. -/
def isDigitC (c : Char) : Bool :=
  '0' ≤ c && c ≤ '9'

/-- Regex word character `\w` on ASCII text: letters, digits, underscore.
Used for the `\b` boundary in the reference-number regex. -/
def isWordChar (c : Char) : Bool :=
  isDigitC c || ('a' ≤ c && c ≤ 'z') || ('A' ≤ c && c ≤ 'Z') || c = '_'

/-- ASCII lower-casing, for the source's `re.IGNORECASE` matches. -/
def toLowerC (c : Char) : Char :=
  if 'A' ≤ c ∧ c ≤ 'Z' then Char.ofNat (c.toNat + 32) else c

def digitVal (c : Char) : Nat := c.toNat - 48

def natOfDigits (l : List Char) : Nat :=
  l.foldl (fun a c => 10 * a + digitVal c) 0

/-! ### List-level string operations -/

/-- Test that `u` is a leading segment of `v` (Python `v.startswith(u)` on char lists). -/
def startsWithL : List Char → List Char → Bool
  | [], _ => true
  | _ :: _, [] => false
  | a :: as, b :: bs => a = b && startsWithL as bs

/-- Test that `u` occurs contiguously in `v`: Python's `u in v` substring test. -/
def containsSub (u : List Char) : List Char → Bool
  | [] => startsWithL u []
  | c :: rest => startsWithL u (c :: rest) || containsSub u rest

/-- Python `s.split(sep)` for a one-character separator: no collapsing of
adjacent separators, and the empty string splits to `[""]`. -/
def splitCh (sep : Char) : List Char → List (List Char)
  | [] => [[]]
  | c :: cs =>
    if c = sep then [] :: splitCh sep cs
    else
      match splitCh sep cs with
      | [] => [[c]]
      | l :: ls => (c :: l) :: ls

/-- Python `s.strip()`: drop leading and trailing whitespace. -/
def stripL (l : List Char) : List Char :=
  (((l.dropWhile isSpace).reverse.dropWhile isSpace)).reverse

/-- The regex substitution `re.sub(r"\s+", " ", s)`: every maximal
whitespace run becomes a single space.  Written with a two-character
lookahead so that the recursion is structural. -/
def collapse : List Char → List Char
  | [] => []
  | [c] => if isSpace c then [' '] else [c]
  | c :: d :: cs =>
    if isSpace c && isSpace d then collapse (d :: cs)
    else (if isSpace c then ' ' else c) :: collapse (d :: cs)

/-- Python `s.replace("\n", " | ")` — a per-character substitution since
the pattern is a single character. -/
def replNl : List Char → List Char
  | [] => []
  | c :: cs => (if c = '\n' then [' ', '|', ' '] else [c]) ++ replNl cs

/-! ### Python float("...") acceptance and exact value

CPython's float constructor accepts an optionally signed decimal literal
with optional fraction and exponent, with single underscores allowed
between digits, plus inf/infinity/nan; surrounding whitespace is
stripped.  `floatParse?` returns the exact rational value of a finite
literal; `pyFloatAccepts` additionally accepts inf/nan spellings. -/

/-- Consume a maximal digit group `digit (underscore? digit)*`, returning
the digits consumed and the remaining input. -/
def consumeDigitsU : List Char → List Char × List Char
  | [] => ([], [])
  | c :: '_' :: d :: rest =>
    if isDigitC c then
      if isDigitC d then
        let p := consumeDigitsU (d :: rest)
        (c :: p.1, p.2)
      else ([c], '_' :: d :: rest)
    else ([], c :: '_' :: d :: rest)
  | c :: rest =>
    if isDigitC c then
      let p := consumeDigitsU rest
      (c :: p.1, p.2)
    else ([], c :: rest)

/-- Finish a float literal after the mantissa digits: optional exponent,
then end of input.  `ids`/`fds` are the integer and fraction digits. -/
def finishFloat (sgn : Int) (ids fds : List Char) : List Char → Option ℚ :=
  let mant : ℚ := (natOfDigits ids : ℚ) + (natOfDigits fds : ℚ) / ((10 : ℚ) ^ fds.length)
  let signed : ℚ := (sgn : ℚ) * mant
  fun l =>
    match l with
    | [] => some signed
    | e :: rest =>
      if e = 'e' ∨ e = 'E' then
        let sp : Int × List Char :=
          match rest with
          | '+' :: r => (1, r)
          | '-' :: r => (-1, r)
          | r => (1, r)
        let p := consumeDigitsU sp.2
        if p.1 = [] ∨ p.2 ≠ [] then none
        else some (signed * (10 : ℚ) ^ (sp.1 * (natOfDigits p.1 : Int)))
      else none

/-- Exact rational value of a finite Python float literal, or `none` if
`float(s)` would raise `ValueError` (or produce inf/nan). -/
def floatParse? (l0 : List Char) : Option ℚ :=
  let l1 := stripL l0
  let sp : Int × List Char :=
    match l1 with
    | '+' :: r => (1, r)
    | '-' :: r => (-1, r)
    | r => (1, r)
  let ip := consumeDigitsU sp.2
  match ip.2 with
  | '.' :: r =>
    let fp := consumeDigitsU r
    if ip.1 = [] ∧ fp.1 = [] then none
    else finishFloat sp.1 ip.1 fp.1 fp.2
  | rest =>
    if ip.1 = [] then none
    else finishFloat sp.1 ip.1 [] rest

/-- The inf/infinity/nan spellings accepted by `float`, case-insensitive,
with an optional sign. -/
def floatIsInfNan (l0 : List Char) : Bool :=
  let l1 := stripL l0
  let l2 : List Char :=
    match l1 with
    | '+' :: r => r
    | '-' :: r => r
    | r => r
  let low := l2.map toLowerC
  low = "inf".data || low = "infinity".data || low = "nan".data

/-- Whether Python `float(s)` succeeds (no `ValueError`). -/
def pyFloatAccepts (s : String) : Bool :=
  (floatParse? s.data).isSome || floatIsInfNan s.data

/-! ### String-level wrappers -/

/-- Python `s.strip()`. -/
def pyStrip (s : String) : String := ⟨stripL s.data⟩

/-- Python `s.replace(",", "")`. -/
def removeCommas (s : String) : String := ⟨s.data.filter (fun c => c != ',')⟩

/-! ### Source embedding: parse_sbi_statement.py helpers -/

/-- A raw table cell as produced by pdfplumber: text or `None`. -/
abbrev Cell := Option String

/-- Source `parse_amount(value)` from parse_sbi_statement.py:
falsy or "-" input gives "", otherwise strip, drop thousands separators,
and keep the cleaned text only if `float` accepts it. -/
def parse_amount (value : Cell) : String :=
  match value with
  | none => ""
  | some v =>
    if v = "" ∨ pyStrip v = "-" then ""
    else
      let cleaned := removeCommas (pyStrip v)
      if pyFloatAccepts cleaned then cleaned else ""

def leapYear (y : Nat) : Bool :=
  (y % 4 = 0 && y % 100 ≠ 0) || y % 400 = 0

def daysInMonth (m y : Nat) : Nat :=
  if m = 2 then (if leapYear y then 29 else 28)
  else if m = 4 ∨ m = 6 ∨ m = 9 ∨ m = 11 then 30 else 31

/-- Acceptance of `datetime.strptime(text, "%d/%m/%Y")`: `%d` and `%m`
are one or two digits in range, `%Y` is exactly four digits, the whole
string must be consumed, and the day must exist in the month. -/
def dateCheck (l : List Char) : Bool :=
  match splitCh '/' l with
  | [d, m, y] =>
    if 1 ≤ d.length ∧ d.length ≤ 2 ∧ d.all isDigitC = true ∧
       1 ≤ m.length ∧ m.length ≤ 2 ∧ m.all isDigitC = true ∧
       y.length = 4 ∧ y.all isDigitC = true ∧
       1 ≤ natOfDigits d ∧ 1 ≤ natOfDigits m ∧ natOfDigits m ≤ 12 ∧
       1 ≤ natOfDigits y ∧ natOfDigits d ≤ daysInMonth (natOfDigits m) (natOfDigits y) then
      true
    else false
  | _ => false

/-- Source `is_date(text)` from parse_sbi_statement.py: falsy input is not a
date; otherwise strptime on the stripped text. -/
def is_date (text : Cell) : Bool :=
  match text with
  | none => false
  | some s => if s = "" then false else dateCheck (stripL s.data)

/-- Source `is_transaction_row(row)`: at least MIN_COLS = 7 cells and a valid
date in column 0. -/
def is_transaction_row (row : List Cell) : Bool :=
  if row = [] ∨ row.length < 7 then false
  else is_date (row.getD 0 none)

/-- Source `is_summary_row(row)`: first cell's text contains "Statement Summary"
or "Brought Forward". -/
def is_summary_row (row : List Cell) : Bool :=
  match row with
  | [] => false
  | c0 :: _ =>
    containsSub "Statement Summary".data (c0.getD "").data ||
    containsSub "Brought Forward".data (c0.getD "").data

/-- One line's test against the regex `^(\d{10,13})\b` of
`extract_ref_number`, applied to the stripped line.  The match succeeds
exactly when the maximal leading digit run has length 10–13 and is
followed by end of line or a non-word character (the `\b` boundary), and
the captured group is then that whole run. -/
def refMatch? (line : List Char) : Option (List Char) :=
  let t := stripL line
  let ds := t.takeWhile isDigitC
  let rest := t.dropWhile isDigitC
  let boundary : Bool :=
    match rest with
    | [] => true
    | c :: _ => !(isWordChar c)
  if 10 ≤ ds.length ∧ ds.length ≤ 13 ∧ boundary = true then some ds else none

/-- The line loop of `extract_ref_number`: first matching line wins. -/
def refScan : List (List Char) → String
  | [] => ""
  | line :: rest =>
    match refMatch? line with
    | some ds => ⟨ds⟩
    | none => refScan rest

/-- Source `extract_ref_number(desc)` from parse_sbi_statement.py. -/
def extract_ref_number (desc : String) : String :=
  if desc = "" then "" else refScan (splitCh '\n' desc.data)

/-- Source `clean_description(desc)`: line breaks become " | ", whitespace runs
collapse to one space, and the result is stripped. -/
def clean_description (desc : String) : String :=
  if desc = "" then "" else ⟨stripL (collapse (replNl desc.data))⟩

/-! ### Source embedding: row emission and page extraction -/

/-- The output record of `_extract_rows_from_pages` (a Python dict with
fixed keys).  `_parse_seq` is attached later by `parse_pdf` and is
modelled as the index in the enumerated output list. -/
structure Txn where
  value_date : String
  post_date : String
  details : String
  ref_no : String
  debit : String
  credit : String
  balance : String
  txn_type : String
  account_source : String
  deriving Repr, DecidableEq, Inhabited

/-- The body of the row loop in `_extract_rows_from_pages`: `none` when
the row is skipped (falsy row, summary row, non-transaction row, or all
three amount columns empty after parsing), otherwise the emitted record. -/
def processRow (row : List Cell) : Option Txn :=
  if row = [] then none
  else if is_summary_row row then none
  else if is_transaction_row row = false then none
  else
    let descRaw := (row.getD 2 none).getD ""
    let debit := parse_amount (row.getD 4 none)
    let credit := parse_amount (row.getD 5 none)
    let balance := parse_amount (row.getD 6 none)
    if debit = "" ∧ credit = "" ∧ balance = "" then none
    else
      some
        { value_date := pyStrip ((row.getD 1 none).getD "")
          post_date := pyStrip ((row.getD 0 none).getD "")
          details := clean_description descRaw
          ref_no := extract_ref_number descRaw
          debit := debit
          credit := credit
          balance := balance
          txn_type := if debit ≠ "" then "debit" else if credit ≠ "" then "credit" else ""
          account_source := "sbi_email" }

/-- A pdfplumber page: its `extract_text()` result (None possible) and
its `extract_tables()` result. -/
structure PlumberPage where
  text : Option String
  tables : List (List (List Cell))
  deriving Repr, DecidableEq

/-- Source `_extract_rows_from_pages(pdf)`: the triple page/table/row loop,
appending every emitted record in order. -/
def extract_rows_from_pages (pages : List PlumberPage) : List Txn :=
  ((pages.map fun page =>
      ((page.tables.map fun table => table.filterMap processRow)).flatten)).flatten

/-! ### Source embedding: parse_pdf

`parse_pdf` opens the document (password handling is I/O and outside the
embedding), fails on zero pages, validates the first page's text against
`re.search(r"State Bank|SBI|Account\s*Number", ..., re.IGNORECASE)`,
extracts the statement period, and then extracts rows batch by batch
(`range(0, page_count, BATCH_SIZE)`), concatenating the batches in
order.  Rebuilding a sub-document from a page range and re-extracting it
is modelled as extraction over the corresponding sublist of pages. -/

/-- The parsed document: its pdfplumber pages. -/
structure PdfDocument where
  pages : List PlumberPage
  deriving Repr, DecidableEq

/-- The fatal errors `parse_pdf` can raise after the document is open. -/
inductive ParseError where
  | emptyDocument
  | formatMismatch
  deriving Repr, DecidableEq

/-- Consecutive batches of `max b 1` elements (fuel-structured so that
the kernel can evaluate it; the fuel is the list length, which bounds
the number of batches). -/
def chunksOfAux (b : Nat) : Nat → List α → List (List α)
  | 0, _ => []
  | _, [] => []
  | fuel + 1, x :: xs =>
    (x :: xs).take (max b 1) :: chunksOfAux b fuel ((x :: xs).drop (max b 1))

/-- The page ranges `range(0, n, b)` of the batching loop, as the list of
corresponding page batches. -/
def chunksOf (b : Nat) (l : List α) : List (List α) :=
  chunksOfAux b l.length l

/-- One alternative position test of the header regex search; `low` is
an already lower-cased tail of the first page's text. -/
def headerTokenAt (low : List Char) : Bool :=
  startsWithL "state bank".data low || startsWithL "sbi".data low ||
    (startsWithL "account".data low &&
      startsWithL "number".data ((low.drop 7).dropWhile isSpace))

/-- The search `re.search(r"State Bank|SBI|Account\s*Number", text, re.IGNORECASE)`
viewed as a Boolean: some position matches some alternative. -/
def headerSearch (text : List Char) : Bool :=
  ((text.map toLowerC).tails).any headerTokenAt

/-- Case-insensitive literal match: consume `pat` (given lower-case)
from the front of the text, returning the rest. -/
def expectCI : List Char → List Char → Option (List Char)
  | [], l => some l
  | _ :: _, [] => none
  | p :: ps, c :: cs => if toLowerC c = p then expectCI ps cs else none

/-- The class `\s+`: at least one whitespace character, consumed greedily. -/
def expectWs1 (l : List Char) : Option (List Char) :=
  match l with
  | [] => none
  | c :: cs => if isSpace c then some (cs.dropWhile isSpace) else none

/-- The capture group `(\d{2}-\d{2}-\d{4})`: exactly 2-2-4 digits with
literal dashes. -/
def parseDmy (l : List Char) : Option (List Char × List Char) :=
  match l with
  | a :: b :: '-' :: c :: d :: '-' :: e :: f :: g :: h :: rest =>
    if ([a, b, c, d, e, f, g, h]).all isDigitC then
      some ([a, b, '-', c, d, '-', e, f, g, h], rest)
    else none
  | _ => none

/-- Match of the statement-period regex starting at a fixed position:
`Statement\s+From\s*:\s*(\d{2}-\d{2}-\d{4})\s+to\s+(\d{2}-\d{2}-\d{4})`,
case-insensitive.  Every quantifier here is over whitespace followed by a
non-whitespace token, so greedy matching is deterministic. -/
def matchPeriodAt (l : List Char) : Option (String × String) := do
  let l ← expectCI "statement".data l
  let l ← expectWs1 l
  let l ← expectCI "from".data l
  let l := l.dropWhile isSpace
  let l ← match l with
          | ':' :: r => some r
          | _ => none
  let l := l.dropWhile isSpace
  let p1 ← parseDmy l
  let l ← expectWs1 p1.2
  let l ← expectCI "to".data l
  let l ← expectWs1 l
  let p2 ← parseDmy l
  some (⟨p1.1⟩, ⟨p2.1⟩)

/-- Source `extract_statement_period(pdf)`: `re.search` over the first page's
text — the leftmost matching position wins. -/
def extract_statement_period (firstText : String) : Option String × Option String :=
  match (firstText.data.tails).findSome? matchPeriodAt with
  | some p => (some p.1, some p.2)
  | none => (none, none)

/-- The first page's `extract_text() or ""`. -/
def firstPageText (doc : PdfDocument) : String :=
  match doc.pages with
  | [] => ""
  | p :: _ => p.text.getD ""

/-- Constant `BATCH_SIZE = 15` from parse_sbi_statement.py. -/
def BATCH_SIZE : Nat := 15

/-- Source `parse_pdf(pdf_path, password)` after the document is open, with the
batch size as an explicit parameter (the source fixes it to
`BATCH_SIZE`).  Returns the enumerated transactions (the enumeration is
the `_parse_seq` assignment), the statement period and the page count. -/
def parse_pdf (batchSize : Nat) (doc : PdfDocument) :
    Except ParseError (List (Nat × Txn) × (Option String × Option String) × Nat) :=
  if doc.pages.length = 0 then .error .emptyDocument
  else if headerSearch (firstPageText doc).data = false then .error .formatMismatch
  else
    let period := extract_statement_period (firstPageText doc)
    let transactions := ((chunksOf batchSize doc.pages).map extract_rows_from_pages).flatten
    .ok (transactions.enum, period, doc.pages.length)

/-- The single-pass reference: identical to `parse_pdf` except that all
pages are extracted in one sweep, following the spec's description of
batching as output-invisible.  `parse_pdf` is proved equal to it for
every batch size ≥ 1. -/
def parse_pdf_onepass (doc : PdfDocument) :
    Except ParseError (List (Nat × Txn) × (Option String × Option String) × Nat) :=
  if doc.pages.length = 0 then .error .emptyDocument
  else if headerSearch (firstPageText doc).data = false then .error .formatMismatch
  else
    let period := extract_statement_period (firstPageText doc)
    let transactions := extract_rows_from_pages doc.pages
    .ok (transactions.enum, period, doc.pages.length)

/-! ### Source embedding: compute_hash (SHA-256, hashlib semantics) -/

/-- Word-level modular addition base. -/
def M32 : Nat := 2 ^ 32

/-- Right rotation of a 32-bit word. -/
def rotr (n x : Nat) : Nat := x / 2 ^ n + x % 2 ^ n * 2 ^ (32 - n)

def sigBig0 (x : Nat) : Nat := rotr 2 x ^^^ rotr 13 x ^^^ rotr 22 x
def sigBig1 (x : Nat) : Nat := rotr 6 x ^^^ rotr 11 x ^^^ rotr 25 x
def sigSml0 (x : Nat) : Nat := rotr 7 x ^^^ rotr 18 x ^^^ x / 2 ^ 3
def sigSml1 (x : Nat) : Nat := rotr 17 x ^^^ rotr 19 x ^^^ x / 2 ^ 10

def chF (x y z : Nat) : Nat := x &&& y ^^^ ((x ^^^ (M32 - 1)) &&& z)
def majF (x y z : Nat) : Nat := x &&& y ^^^ (x &&& z) ^^^ (y &&& z)

/-- The 64 SHA-256 round constants. -/
def K256 : List Nat :=
  [1116352408, 1899447441, 3049323471, 3921009573,
   961987163, 1508970993, 2453635748, 2870763221,
   3624381080, 310598401, 607225278, 1426881987,
   1925078388, 2162078206, 2614888103, 3248222580,
   3835390401, 4022224774, 264347078, 604807628,
   770255983, 1249150122, 1555081692, 1996064986,
   2554220882, 2821834349, 2952996808, 3210313671,
   3336571891, 3584528711, 113926993, 338241895,
   666307205, 773529912, 1294757372, 1396182291,
   1695183700, 1986661051, 2177026350, 2456956037,
   2730485921, 2820302411, 3259730800, 3345764771,
   3516065817, 3600352804, 4094571909, 275423344,
   430227734, 506948616, 659060556, 883997877,
   958139571, 1322822218, 1537002063, 1747873779,
   1955562222, 2024104815, 2227730452, 2361852424,
   2428436474, 2756734187, 3204031479, 3329325298]

/-- The eight working/digest words of the compression function. -/
structure H8 where
  a : Nat
  b : Nat
  c : Nat
  d : Nat
  e : Nat
  f : Nat
  g : Nat
  h : Nat
  deriving Repr, DecidableEq

/-- The SHA-256 initial hash value. -/
def H8.init : H8 :=
  ⟨1779033703, 3144134277, 1013904242, 2773480762,
   1359893119, 2600822924, 528734635, 1541459225⟩

/-- Big-endian 4-byte grouping of a block into 32-bit words. -/
def bytesToWords : List Nat → List Nat
  | b0 :: b1 :: b2 :: b3 :: rest =>
    (b0 * 2 ^ 24 + b1 * 2 ^ 16 + b2 * 2 ^ 8 + b3) :: bytesToWords rest
  | _ => []

/-- Message-schedule extension: append `fuel` further words. -/
def extendW : Nat → List Nat → List Nat
  | 0, w => w
  | fuel + 1, w =>
    let n := w.length
    let nw := (sigSml1 (w.getD (n - 2) 0) + w.getD (n - 7) 0 +
               sigSml0 (w.getD (n - 15) 0) + w.getD (n - 16) 0) % M32
    extendW fuel (w ++ [nw])

/-- The 64 compression rounds over the zipped (constant, schedule) list. -/
def roundsFold : H8 → List (Nat × Nat) → H8
  | s, [] => s
  | s, (k, w) :: rest =>
    let t1 := (s.h + sigBig1 s.e + chF s.e s.f s.g + k + w) % M32
    let t2 := (sigBig0 s.a + majF s.a s.b s.c) % M32
    roundsFold ⟨(t1 + t2) % M32, s.a, s.b, s.c, (s.d + t1) % M32, s.e, s.f, s.g⟩ rest

/-- Process one 64-byte block. -/
def compressBlock (s : H8) (block : List Nat) : H8 :=
  let ws := extendW 48 (bytesToWords block)
  let t := roundsFold s (K256.zip ws)
  ⟨(s.a + t.a) % M32, (s.b + t.b) % M32, (s.c + t.c) % M32, (s.d + t.d) % M32,
   (s.e + t.e) % M32, (s.f + t.f) % M32, (s.g + t.g) % M32, (s.h + t.h) % M32⟩

/-- The 8-byte big-endian bit-length field of SHA-256 padding. -/
def lenBytes8 (n : Nat) : List Nat :=
  [n / 2 ^ 56 % 256, n / 2 ^ 48 % 256, n / 2 ^ 40 % 256, n / 2 ^ 32 % 256,
   n / 2 ^ 24 % 256, n / 2 ^ 16 % 256, n / 2 ^ 8 % 256, n % 256]

/-- SHA-256 message padding: 0x80, zeros to 56 mod 64, then the length. -/
def sha256Pad (msg : List Nat) : List Nat :=
  msg ++ [128] ++ List.replicate ((119 - msg.length % 64) % 64) 0 ++ lenBytes8 (8 * msg.length)

/-- The SHA-256 digest of a byte sequence, as eight 32-bit words. -/
def sha256Words (msg : List Nat) : H8 :=
  (chunksOf 64 (sha256Pad msg)).foldl compressBlock H8.init

/-- Lower-case hex digit. -/
def hexChar (n : Nat) : Char :=
  if n < 10 then Char.ofNat (48 + n) else Char.ofNat (87 + n)

/-- Eight hex characters of one 32-bit word, most significant first. -/
def wordHex (w : Nat) : List Char :=
  [hexChar (w / 2 ^ 28 % 16), hexChar (w / 2 ^ 24 % 16), hexChar (w / 2 ^ 20 % 16),
   hexChar (w / 2 ^ 16 % 16), hexChar (w / 2 ^ 12 % 16), hexChar (w / 2 ^ 8 % 16),
   hexChar (w / 2 ^ 4 % 16), hexChar (w % 16)]

/-- Digest `hashlib.sha256(bytes).hexdigest()` as a character list (64 chars). -/
def sha256HexChars (msg : List Nat) : List Char :=
  let s := sha256Words msg
  wordHex s.a ++ wordHex s.b ++ wordHex s.c ++ wordHex s.d ++
  wordHex s.e ++ wordHex s.f ++ wordHex s.g ++ wordHex s.h

/-- UTF-8 encoding of one scalar value (Python `str.encode()`). -/
def utf8Char (c : Char) : List Nat :=
  let n := c.toNat
  if n < 128 then [n]
  else if n < 2048 then [192 + n / 64, 128 + n % 64]
  else if n < 65536 then [224 + n / 4096, 128 + n / 64 % 64, 128 + n % 64]
  else [240 + n / 262144, 128 + n / 4096 % 64, 128 + n / 64 % 64, 128 + n % 64]

/-- Encoding `raw.encode()`: UTF-8 bytes of the string. -/
def utf8Encode (s : String) : List Nat :=
  ((s.data.map utf8Char)).flatten

/-- The `"|".join([...])` of the five financial fields in `compute_hash`. -/
def hashJoin (t : Txn) : String :=
  t.post_date ++ "|" ++ t.value_date ++ "|" ++ t.debit ++ "|" ++ t.credit ++ "|" ++ t.balance

/-- Source `compute_hash(txn)` from parse_sbi_statement.py:
`hashlib.sha256(raw.encode()).hexdigest()[:32]`. -/
def compute_hash (t : Txn) : String :=
  ⟨(sha256HexChars (utf8Encode (hashJoin t))).take 32⟩

/-- Hexadecimal (lower-case) character predicate, for stating C4. -/
def isHexChar (c : Char) : Bool :=
  decide (('0' ≤ c ∧ c ≤ '9') ∨ ('a' ≤ c ∧ c ≤ 'f'))

/-! ### Source embedding: verify_balance_chain (verify_extraction.py)

Python floats are modelled as exact rationals; `round(x, 2)` is
round-half-to-even at two decimals.  Error records are modelled by the
failing row index (the f-string message is presentation only). -/

/-- Round-half-to-even to an integer, CPython `round` semantics. -/
def roundHalfEven (x : ℚ) : ℤ :=
  let n := ⌊x⌋
  let r := x - (n : ℚ)
  if r < 1 / 2 then n
  else if 1 / 2 < r then n + 1
  else if n % 2 = 0 then n else n + 1

/-- Python `round(x, 2)`. -/
def pyRound2 (x : ℚ) : ℚ := (roundHalfEven (100 * x) : ℚ) / 100

/-- Value `float(t[field]) if t[field] else 0.0`, on the exact-rational model
(unparseable non-empty text defaults to 0 here; the verification theorem
assumes every non-empty field parses, which is where the model is
faithful — in Python such a field would raise an uncaught ValueError). -/
def fieldVal (s : String) : ℚ :=
  if s = "" then 0 else (floatParse? s.data).getD 0

/-- The loop of `verify_balance_chain`: running balance threading, error
indices, and the final running value. -/
def verifyChainAux : List Txn → ℚ → Nat → List Nat × ℚ
  | [], running, _ => ([], running)
  | t :: ts, running, i =>
    let d := fieldVal t.debit
    let c := fieldVal t.credit
    let b := fieldVal t.balance
    let expected := pyRound2 (running - d + c)
    let rest := verifyChainAux ts b (i + 1)
    ((if 1 / 100 < |expected - b| then [i] else []) ++ rest.1, rest.2)

/-- Source `verify_balance_chain(transactions, opening_balance)` from
verify_extraction.py: error list (as row indices) and closing balance. -/
def verify_balance_chain (ts : List Txn) (opening : ℚ) : List Nat × ℚ :=
  verifyChainAux ts opening 0

/-- The reference balance for row `i` in the claim's statement: the
opening balance for row 0, the emitted balance of row `i-1` otherwise. -/
def chainPrev (ts : List Txn) (opening : ℚ) : Nat → ℚ
  | 0 => opening
  | i + 1 => fieldVal ((ts.getD i default).balance)

/-! ### Concrete instances used by witnesses and counterexamples -/

/-- A row whose debit and credit columns both carry amounts; the parser
emits it with both fields populated. -/
def c5row : List Cell :=
  [some "01/01/2024", some "02/01/2024", some "desc", some "-",
   some "100", some "200", some "300"]

def c5txn : Txn :=
  ⟨"02/01/2024", "01/01/2024", "desc", "", "100", "200", "300", "debit", "sbi_email"⟩

def c5doc : PdfDocument := ⟨[⟨some "SBI", [[c5row]]⟩]⟩

def c5wdoc : PdfDocument :=
  ⟨[⟨some "State Bank", [[[some "04/01/2024", some "04/01/2024", some "W", some "-",
      some "7.00", some "-", some "93.00"]]]⟩]⟩

def c5wtxn : Txn :=
  ⟨"04/01/2024", "04/01/2024", "W", "", "7.00", "", "93.00", "debit", "sbi_email"⟩

/-- A row whose value-date column is not a date; the parser emits it
unchanged (no validation on column 1). -/
def c10row : List Cell :=
  [some " 03/01/2024 ", some "not a date", some "PAYMENT", some "-",
   some "12.00", some "-", some "88.00"]

def c10txn : Txn :=
  ⟨"not a date", "03/01/2024", "PAYMENT", "", "12.00", "", "88.00", "debit", "sbi_email"⟩

def c10pages : List PlumberPage :=
  [⟨some "x", [[[some "05/01/2024", some "05/01/2024", some "D", some "-",
      some "-", some "1.00", some "101.00"]]]⟩]

def c10wtxn : Txn :=
  ⟨"05/01/2024", "05/01/2024", "D", "", "", "1.00", "101.00", "credit", "sbi_email"⟩

def c3ts : List Txn :=
  [⟨"01/01/2024", "01/01/2024", "X", "", "", "100.00", "100.00", "credit", "sbi_email"⟩,
   ⟨"02/01/2024", "02/01/2024", "Y", "", "40.50", "", "59.50", "debit", "sbi_email"⟩]

def c4t1 : Txn :=
  ⟨"02/01/2024", "01/01/2024", "A DETAILS", "123", "10.00", "", "90.00", "debit", "sbi_email"⟩

def c4t2 : Txn :=
  ⟨"02/01/2024", "01/01/2024", "B OTHER", "", "10.00", "", "90.00", "debit", "sbi_email"⟩

/-- Witness for C2 at batch size 2 on a concrete 3-page document. -/
def c2doc : PdfDocument :=
  ⟨[⟨some "SBI Account Number 123", [[[some "01/01/2024", some "01/01/2024", some "OPENING TXN",
       some "-", some "10.00", some "-", some "990.00"]]]⟩,
    ⟨some "page two", [[[some "02/01/2024", some "02/01/2024", some "SECOND",
       some "-", some "-", some "5.00", some "995.00"]]]⟩,
    ⟨some "page three", []⟩]⟩

/-! ### Helper lemmas -/

theorem is_transaction_row_iff (row : List Cell) :
    is_transaction_row row = true ↔ (7 ≤ row.length ∧ is_date (row.getD 0 none) = true) := by
  unfold is_transaction_row
  split_ifs with h
  · simp only [Bool.false_eq_true, false_iff, not_and]
    intro h7
    rcases h with h | h
    · subst h; simp at h7
    · omega
  · push_neg at h
    simp [h.2]

theorem is_summary_row_cons (c0 : Cell) (rest : List Cell) :
    is_summary_row (c0 :: rest) =
      (containsSub "Statement Summary".data (c0.getD "").data ||
       containsSub "Brought Forward".data (c0.getD "").data) := rfl

theorem extract_append (l₁ l₂ : List PlumberPage) :
    extract_rows_from_pages (l₁ ++ l₂) =
      extract_rows_from_pages l₁ ++ extract_rows_from_pages l₂ := by
  simp [extract_rows_from_pages]

theorem extract_chunksAux (b : Nat) :
    ∀ (fuel : Nat) (l : List PlumberPage), l.length ≤ fuel →
      ((chunksOfAux b fuel l).map extract_rows_from_pages).flatten = extract_rows_from_pages l := by
  intro fuel
  induction fuel with
  | zero =>
    intro l hl
    have : l = [] := List.length_eq_zero.mp (Nat.le_zero.mp hl)
    subst this
    simp [chunksOfAux, extract_rows_from_pages]
  | succ n ih =>
    intro l hl
    match l with
    | [] => simp [chunksOfAux, extract_rows_from_pages]
    | x :: xs =>
      rw [chunksOfAux]
      simp only [List.map_cons, List.flatten_cons]
      have hmax : 1 ≤ max b 1 := Nat.le_max_right b 1
      have hlen : ((x :: xs).drop (max b 1)).length ≤ n := by
        simp only [List.length_drop, List.length_cons]
        simp only [List.length_cons] at hl
        omega
      rw [ih ((x :: xs).drop (max b 1)) hlen, ← extract_append, List.take_append_drop]

theorem refScan_eq_findSome? (ls : List (List Char)) :
    refScan ls = (((ls.findSome? refMatch?).map (fun ds => (⟨ds⟩ : String)))).getD "" := by
  induction ls with
  | nil => rfl
  | cons l rest ih =>
    rw [refScan, List.findSome?_cons]
    cases h : refMatch? l <;> simp [h, ih]

/-! ### C1 -/

/-- C1: a table row is emitted as a transaction by parse_pdf's row loop
if and only if its first cell contains neither "Statement Summary" nor
"Brought Forward", it has at least 7 columns, column 0 is a strict
DD/MM/YYYY date, and not all three of the debit, credit and balance
columns fail amount parsing.  In particular summary rows are never
emitted. -/
theorem c1_row_emission (row : List Cell) :
    (processRow row).isSome = true ↔
      (containsSub "Statement Summary".data ((row.getD 0 none).getD "").data = false ∧
       containsSub "Brought Forward".data ((row.getD 0 none).getD "").data = false ∧
       7 ≤ row.length ∧ is_date (row.getD 0 none) = true ∧
       ¬(parse_amount (row.getD 4 none) = "" ∧ parse_amount (row.getD 5 none) = "" ∧
          parse_amount (row.getD 6 none) = "")) := by
  cases row with
  | nil => simp [processRow]
  | cons c0 rest =>
    simp only [List.getD_cons_zero]
    by_cases hsum : is_summary_row (c0 :: rest) = true
    · have hL : processRow (c0 :: rest) = none := by simp [processRow, hsum]
      rw [hL]
      simp only [Option.isSome_none, Bool.false_eq_true, false_iff]
      rintro ⟨hA, hB, -⟩
      rw [is_summary_row_cons, Bool.or_eq_true] at hsum
      rcases hsum with h | h
      · rw [hA] at h; exact absurd h (by simp)
      · rw [hB] at h; exact absurd h (by simp)
    · have hsum' : is_summary_row (c0 :: rest) = false := by
        cases h : is_summary_row (c0 :: rest)
        · rfl
        · exact absurd h hsum
      by_cases htx : is_transaction_row (c0 :: rest) = true
      · by_cases hempty : (parse_amount ((c0 :: rest).getD 4 none) = "" ∧
            parse_amount ((c0 :: rest).getD 5 none) = "" ∧
            parse_amount ((c0 :: rest).getD 6 none) = "")
        · have hL : processRow (c0 :: rest) = none := by
            have he : parse_amount (rest[3]?.getD none) = "" ∧
                parse_amount (rest[4]?.getD none) = "" ∧
                parse_amount (rest[5]?.getD none) = "" := by
              simpa [List.getD_cons_succ, List.getD_eq_getElem?_getD] using hempty
            simp [processRow, hsum', htx, he]
          rw [hL]
          simp only [Option.isSome_none, Bool.false_eq_true, false_iff]
          rintro ⟨-, -, -, -, hne⟩
          exact hne hempty
        · have hL : (processRow (c0 :: rest)).isSome = true := by
            have he : ¬(parse_amount (rest[3]?.getD none) = "" ∧
                parse_amount (rest[4]?.getD none) = "" ∧
                parse_amount (rest[5]?.getD none) = "") := by
              intro hc
              exact hempty (by
                simpa [List.getD_cons_succ, List.getD_eq_getElem?_getD] using hc)
            simp [processRow, hsum', htx, he]
          rw [hL]
          simp only [true_iff]
          have h2 := (is_transaction_row_iff (c0 :: rest)).mp htx
          rw [is_summary_row_cons] at hsum'
          simp only [Bool.or_eq_false_iff] at hsum'
          exact ⟨hsum'.1, hsum'.2, h2.1, by simpa using h2.2, hempty⟩
      · have htx' : is_transaction_row (c0 :: rest) = false := by
          cases h : is_transaction_row (c0 :: rest)
          · rfl
          · exact absurd h htx
        have hL : processRow (c0 :: rest) = none := by
          simp [processRow, hsum', htx']
        rw [hL]
        simp only [Option.isSome_none, Bool.false_eq_true, false_iff]
        rintro ⟨-, -, h7, hd, -⟩
        exact htx ((is_transaction_row_iff (c0 :: rest)).mpr ⟨h7, by simpa using hd⟩)

/-! ### C2 -/

/-- C2: for every batch size b ≥ 1 and every document, parse_pdf with
batch-wise page processing produces exactly the single-pass result —
same records, same order, same period and page count (batching is
output-invisible). -/
theorem c2_batch_invariance (b : Nat) (hb : 1 ≤ b) (doc : PdfDocument) :
    parse_pdf b doc = parse_pdf_onepass doc := by
  have key : ((chunksOf b doc.pages).map extract_rows_from_pages).flatten =
      extract_rows_from_pages doc.pages :=
    extract_chunksAux b doc.pages.length doc.pages le_rfl
  simp only [parse_pdf, parse_pdf_onepass, key]

theorem c2_batch_invariance_witness : parse_pdf 2 c2doc = parse_pdf_onepass c2doc :=
  c2_batch_invariance 2 (by decide) c2doc

/-! ### C6 -/

/-- C6: parse_pdf fails with the format-mismatch error — before any table
extraction, hence with zero records — exactly when the document has a
first page whose extracted text matches none of the header-regex
alternatives (State Bank / SBI / Account\s*Number, case-insensitive). -/
theorem c6_format_mismatch (b : Nat) (doc : PdfDocument) :
    parse_pdf b doc = .error .formatMismatch ↔
      (doc.pages ≠ [] ∧ headerSearch (firstPageText doc).data = false) := by
  unfold parse_pdf
  split_ifs with h0 h1
  · have hp : doc.pages = [] := List.length_eq_zero.mp h0
    simp [hp]
  · have hp : doc.pages ≠ [] := by
      intro h
      exact h0 (by simp [h])
    simp [hp, h1]
  · have h1' : headerSearch (firstPageText doc).data = true := by
      cases h : headerSearch (firstPageText doc).data
      · exact absurd h h1
      · rfl
    simp [h1']

/-! ### C7 -/

/-- C7: parse_amount is total (never raises) and satisfies the spec's
contract: the four concrete examples; falsy or "-" input maps to "";
and in general the result is either "" or exactly the trimmed,
comma-stripped input, which then must be accepted by float parsing. -/
theorem c7_parse_amount :
    parse_amount (some "1,234.56") = "1234.56" ∧
    parse_amount (some "-") = "" ∧
    parse_amount (some "") = "" ∧
    parse_amount (some "abc") = "" ∧
    parse_amount none = "" ∧
    (∀ s : String, pyStrip s = "-" → parse_amount (some s) = "") ∧
    (∀ s : String, pyFloatAccepts (removeCommas (pyStrip s)) = false →
       parse_amount (some s) = "") ∧
    (∀ v : Cell, parse_amount v = "" ∨
       (parse_amount v = removeCommas (pyStrip (v.getD "")) ∧
        pyFloatAccepts (parse_amount v) = true)) := by
  refine ⟨by decide, by decide, by decide, by decide, rfl, ?_, ?_, ?_⟩
  · intro s hs
    simp [parse_amount, hs]
  · intro s hs
    simp only [parse_amount]
    split_ifs with h1 h2
    · rfl
    · rw [hs] at h2; exact absurd h2 (by simp)
    · rfl
  · intro v
    match v with
    | none => exact Or.inl rfl
    | some s =>
      simp only [parse_amount]
      split_ifs with h1 h2
      · exact Or.inl rfl
      · exact Or.inr ⟨rfl, by simpa using h2⟩
      · exact Or.inl rfl

/-- Witness for C7's conditional clauses at concrete inputs. -/
theorem c7_parse_amount_witness :
    parse_amount (some " - ") = "" ∧ parse_amount (some "12..5") = "" :=
  ⟨c7_parse_amount.2.2.2.2.2.1 " - " (by decide),
   c7_parse_amount.2.2.2.2.2.2.1 "12..5" (by decide)⟩

/-! ### C8 -/

/-- C8: extract_ref_number scans the raw description's lines top to
bottom and returns the captured leading digit run of the first line
matching `^(\d{10,13})\b`; the captured run is the line's maximal
leading digit run of length 10–13; the spec's concrete example holds;
and when no line matches the result is "". -/
theorem c8_ref_extraction :
    (∀ desc : String, extract_ref_number desc =
        (((splitCh '\n' desc.data).findSome? refMatch?).map
          (fun ds => (⟨ds⟩ : String))).getD "") ∧
    (∀ (l ds : List Char), refMatch? l = some ds →
        ds = (stripL l).takeWhile isDigitC ∧ 10 ≤ ds.length ∧ ds.length ≤ 13) ∧
    extract_ref_number "1234567890123 NEFT TRANSFER" = "1234567890123" ∧
    (∀ desc : String, (∀ l ∈ splitCh '\n' desc.data, refMatch? l = none) →
        extract_ref_number desc = "") := by
  have h1 : ∀ desc : String, extract_ref_number desc =
      (((splitCh '\n' desc.data).findSome? refMatch?).map
        (fun ds => (⟨ds⟩ : String))).getD "" := by
    intro desc
    unfold extract_ref_number
    split_ifs with h
    · subst h; rfl
    · exact refScan_eq_findSome? _
  refine ⟨h1, ?_, by decide, ?_⟩
  · intro l ds h
    simp only [refMatch?] at h
    split_ifs at h with hc
    cases h
    exact ⟨rfl, hc.1, hc.2.1⟩
  · intro desc hnone
    rw [h1, List.findSome?_eq_none_iff.mpr hnone]
    rfl

/-- Witness for C8's conditional clause: a description with no numeric
line yields the empty reference. -/
theorem c8_ref_extraction_witness : extract_ref_number "NEFT ONLY\nno digits" = "" :=
  c8_ref_extraction.2.2.2 "NEFT ONLY\nno digits" (by decide)

/-! ### Lemmas on strip -/

theorem dropWhile_head_not (p : Char → Bool) (l : List Char) :
    l.dropWhile p = [] ∨ ∃ c t, l.dropWhile p = c :: t ∧ p c = false := by
  induction l with
  | nil => exact Or.inl rfl
  | cons c cs ih =>
    rw [List.dropWhile_cons]
    split_ifs with h
    · exact ih
    · exact Or.inr ⟨c, cs, rfl, by simpa using h⟩

theorem mem_takeWhile_sp (p : Char → Bool) (l : List Char) :
    ∀ c ∈ l.takeWhile p, p c = true := by
  induction l with
  | nil => simp
  | cons a as ih =>
    rw [List.takeWhile_cons]
    split_ifs with h
    · intro c hc
      rcases List.mem_cons.mp hc with rfl | hc
      · exact h
      · exact ih c hc
    · simp

theorem dropWhile_eq_strip_append (l : List Char) :
    l.dropWhile isSpace =
      stripL l ++ ((l.dropWhile isSpace).reverse.takeWhile isSpace).reverse := by
  have h2 := List.takeWhile_append_dropWhile (p := isSpace)
    (l := (l.dropWhile isSpace).reverse)
  calc l.dropWhile isSpace
      = (l.dropWhile isSpace).reverse.reverse := (List.reverse_reverse _).symm
    _ = ((l.dropWhile isSpace).reverse.takeWhile isSpace ++
          (l.dropWhile isSpace).reverse.dropWhile isSpace).reverse := by rw [h2]
    _ = ((l.dropWhile isSpace).reverse.dropWhile isSpace).reverse ++
          ((l.dropWhile isSpace).reverse.takeWhile isSpace).reverse := by
        rw [List.reverse_append]
    _ = stripL l ++ ((l.dropWhile isSpace).reverse.takeWhile isSpace).reverse := rfl

theorem stripL_decomp (l : List Char) :
    ∃ w1 w2, l = w1 ++ stripL l ++ w2 ∧
      (∀ c ∈ w1, isSpace c = true) ∧ (∀ c ∈ w2, isSpace c = true) := by
  have h1 : l = l.takeWhile isSpace ++ l.dropWhile isSpace :=
    (List.takeWhile_append_dropWhile (p := isSpace) (l := l)).symm
  refine ⟨l.takeWhile isSpace, ((l.dropWhile isSpace).reverse.takeWhile isSpace).reverse,
    ?_, mem_takeWhile_sp isSpace l, ?_⟩
  · conv_lhs => rw [h1, dropWhile_eq_strip_append l]
    simp [List.append_assoc]
  · intro c hc
    exact mem_takeWhile_sp isSpace _ c (List.mem_reverse.mp hc)

theorem stripL_head (l : List Char) (c : Char) (t : List Char)
    (h : stripL l = c :: t) : isSpace c = false := by
  have h3 := dropWhile_eq_strip_append l
  rcases dropWhile_head_not isSpace l with hnil | ⟨c', t', heq, hc'⟩
  · rw [hnil, h] at h3
    exact absurd h3.symm (by simp)
  · rw [heq, h] at h3
    simp only [List.cons_append, List.cons.injEq] at h3
    rw [← h3.1]
    exact hc'

theorem stripL_last (l : List Char) :
    stripL l = [] ∨ ∃ init e, stripL l = init ++ [e] ∧ isSpace e = false := by
  rcases dropWhile_head_not isSpace (l.dropWhile isSpace).reverse with hnil | ⟨c, t, heq, hc⟩
  · left
    simp [stripL, hnil]
  · right
    exact ⟨t.reverse, c, by simp [stripL, heq], hc⟩

theorem stripL_idem (l : List Char) : stripL (stripL l) = stripL l := by
  rcases stripL_last l with hnil | ⟨init, e, hlast, he⟩
  · rw [hnil]; rfl
  · have hne : stripL l ≠ [] := by rw [hlast]; simp
    obtain ⟨c, t, hX⟩ : ∃ c t, stripL l = c :: t := by
      cases hY : stripL l with
      | nil => exact absurd hY hne
      | cons c t => exact ⟨c, t, rfl⟩
    have hc : isSpace c = false := stripL_head l c t hX
    have hdw : (stripL l).dropWhile isSpace = stripL l := by
      rw [hX, List.dropWhile_cons, hc]
      simp
    have hrev : (stripL l).reverse = e :: init.reverse := by
      rw [hlast]
      simp
    have hdw2 : (stripL l).reverse.dropWhile isSpace = (stripL l).reverse := by
      rw [hrev, List.dropWhile_cons, he]
      simp
    calc stripL (stripL l)
        = (((stripL l).dropWhile isSpace).reverse.dropWhile isSpace).reverse := rfl
      _ = ((stripL l).reverse.dropWhile isSpace).reverse := by rw [hdw]
      _ = (stripL l).reverse.reverse := by rw [hdw2]
      _ = stripL l := by simp

theorem pyStrip_idem (s : String) : pyStrip (pyStrip s) = pyStrip s := by
  simp [pyStrip, stripL_idem]

/-! ### Lemmas on processRow and extraction -/

theorem processRow_some_spec (row : List Cell) (t : Txn) (h : processRow row = some t) :
    is_transaction_row row = true ∧
    t.value_date = pyStrip ((row.getD 1 none).getD "") ∧
    t.post_date = pyStrip ((row.getD 0 none).getD "") ∧
    t.debit = parse_amount (row.getD 4 none) ∧
    t.credit = parse_amount (row.getD 5 none) ∧
    t.balance = parse_amount (row.getD 6 none) ∧
    ¬(t.debit = "" ∧ t.credit = "" ∧ t.balance = "") ∧
    t.txn_type = (if t.debit ≠ "" then "debit" else if t.credit ≠ "" then "credit" else "") := by
  simp only [processRow] at h
  split at h
  next => exact absurd h (by simp)
  next h0 =>
  split at h
  next => exact absurd h (by simp)
  next h1 =>
  split at h
  next => exact absurd h (by simp)
  next h2 =>
  split at h
  next => exact absurd h (by simp)
  next h3 =>
  have h2' : is_transaction_row row = true := by
    cases hb : is_transaction_row row
    · exact absurd hb h2
    · rfl
  injection h with h'
  subst h'
  exact ⟨h2', rfl, rfl, rfl, rfl, rfl, h3, rfl⟩

theorem mem_extract_imp (pages : List PlumberPage) (t : Txn)
    (h : t ∈ extract_rows_from_pages pages) : ∃ row, processRow row = some t := by
  simp only [extract_rows_from_pages, List.mem_flatten, List.mem_map] at h
  obtain ⟨l1, ⟨page, hpage, hl1⟩, hmem1⟩ := h
  subst hl1
  simp only [List.mem_flatten, List.mem_map] at hmem1
  obtain ⟨l2, ⟨table, htable, hl2⟩, hmem2⟩ := hmem1
  subst hl2
  obtain ⟨row, hrow, hmk⟩ := List.mem_filterMap.mp hmem2
  exact ⟨row, hmk⟩

theorem is_date_strip (s : String) (h : is_date (some s) = true) :
    pyStrip s ≠ "" ∧ is_date (some (pyStrip s)) = true := by
  have hs : s ≠ "" := by
    intro hc
    rw [hc] at h
    exact absurd h (by decide)
  simp only [is_date] at h
  rw [if_neg hs] at h
  have hne : pyStrip s ≠ "" := by
    intro hc
    have hdata : stripL s.data = [] := congrArg String.data hc
    rw [hdata] at h
    exact absurd h (by decide)
  refine ⟨hne, ?_⟩
  simp only [is_date]
  rw [if_neg hne]
  show dateCheck (stripL (stripL s.data)) = true
  rwa [stripL_idem]

/-! ### C4 -/

theorem isHexChar_hexChar (n : Nat) (h : n ≤ 15) : isHexChar (hexChar n) = true := by
  interval_cases n <;> decide

theorem mem_wordHex_isHex (w : Nat) (c : Char) (hc : c ∈ wordHex w) : isHexChar c = true := by
  simp only [wordHex, List.mem_cons, List.not_mem_nil, or_false] at hc
  rcases hc with h | h | h | h | h | h | h | h <;>
    (subst h; exact isHexChar_hexChar _ (Nat.le_of_lt_succ (Nat.mod_lt _ (by norm_num))))

theorem wordHex_length (w : Nat) : (wordHex w).length = 8 := rfl

theorem sha256HexChars_length (msg : List Nat) : (sha256HexChars msg).length = 64 := by
  simp [sha256HexChars, List.length_append, wordHex_length]

theorem mem_sha256HexChars_isHex (msg : List Nat) (c : Char)
    (hc : c ∈ sha256HexChars msg) : isHexChar c = true := by
  simp only [sha256HexChars, List.mem_append] at hc
  rcases hc with ((((((h | h) | h) | h) | h) | h) | h) | h <;> exact mem_wordHex_isHex _ _ h

/-- C4: compute_hash is the first 32 hex characters of the SHA-256
digest of post_date|value_date|debit|credit|balance (separators always
present, empty fields contribute empty segments); its output is always
32 lower-case hex characters; and it is pure: records equal on the five
financial fields get the same key. -/
theorem c4_dedup_key :
    (∀ t : Txn, compute_hash t = ⟨(sha256HexChars (utf8Encode (hashJoin t))).take 32⟩) ∧
    (∀ t : Txn, (compute_hash t).length = 32) ∧
    (∀ t : Txn, ∀ c ∈ (compute_hash t).data, isHexChar c = true) ∧
    (∀ t t' : Txn, t.post_date = t'.post_date → t.value_date = t'.value_date →
       t.debit = t'.debit → t.credit = t'.credit → t.balance = t'.balance →
       compute_hash t = compute_hash t') := by
  refine ⟨fun t => rfl, ?_, ?_, ?_⟩
  · intro t
    show ((sha256HexChars (utf8Encode (hashJoin t))).take 32).length = 32
    rw [List.length_take, sha256HexChars_length]
    decide
  · intro t c hc
    exact mem_sha256HexChars_isHex _ _ (List.take_subset _ _ hc)
  · intro t t' h1 h2 h3 h4 h5
    have hj : hashJoin t = hashJoin t' := by
      simp only [hashJoin, h1, h2, h3, h4, h5]
    simp [compute_hash, hj]

/-- Witness for C4's determinism clause: two records differing only in
details and ref_no share the dedup key. -/
theorem c4_dedup_key_witness : compute_hash c4t1 = compute_hash c4t2 :=
  c4_dedup_key.2.2.2 c4t1 c4t2 rfl rfl rfl rfl rfl

/-! ### C3 -/

theorem if_singleton_eq_nil (c : Prop) [Decidable c] (x : Nat) :
    ((if c then [x] else []) = ([] : List Nat)) ↔ ¬c := by
  split_ifs with h <;> simp [h]

theorem chainPrev_cons (t : Txn) (ts : List Txn) (r : ℚ) (j : Nat) :
    chainPrev (t :: ts) r (j + 1) = chainPrev ts (fieldVal t.balance) j := by
  cases j with
  | zero => simp [chainPrev]
  | succ j => simp [chainPrev]

theorem verifyChainAux_nil_iff (ts : List Txn) :
    ∀ (running : ℚ) (i0 : Nat),
      (verifyChainAux ts running i0).1 = [] ↔
        ∀ j, j < ts.length →
          |pyRound2 (chainPrev ts running j - fieldVal ((ts.getD j default).debit) +
             fieldVal ((ts.getD j default).credit)) -
            fieldVal ((ts.getD j default).balance)| ≤ 1 / 100 := by
  induction ts with
  | nil =>
    intro running i0
    simp [verifyChainAux]
  | cons t ts ih =>
    intro running i0
    simp only [verifyChainAux]
    rw [List.append_eq_nil, if_singleton_eq_nil, ih (fieldVal t.balance) (i0 + 1)]
    constructor
    · rintro ⟨h0, htail⟩ j hj
      cases j with
      | zero =>
        simpa [chainPrev] using not_lt.mp h0
      | succ j =>
        have hj' : j < ts.length := by simpa using hj
        have := htail j hj'
        simpa [chainPrev_cons, List.getD_cons_succ] using this
    · intro h
      refine ⟨?_, ?_⟩
      · have := h 0 (by simp)
        simp only [chainPrev, List.getD_cons_zero] at this
        exact not_lt.mpr this
      · intro j hj
        have := h (j + 1) (by simpa using Nat.succ_lt_succ hj)
        simpa [chainPrev_cons, List.getD_cons_succ] using this

/-- C3: verify_balance_chain reports zero errors exactly when every row
satisfies |round(prev - debit + credit, 2) - balance| ≤ 0.01, where prev
is the opening balance for row 0 and the emitted balance of the previous
row otherwise, empty fields counting as 0 (floats as exact rationals;
the hypothesis restricts to inputs where non-empty amount fields parse,
which parse_amount guarantees for parser output). -/
theorem c3_balance_chain (ts : List Txn) (opening : ℚ)
    (hfields : ∀ t ∈ ts,
      (t.debit = "" ∨ (floatParse? t.debit.data).isSome = true) ∧
      (t.credit = "" ∨ (floatParse? t.credit.data).isSome = true) ∧
      (t.balance = "" ∨ (floatParse? t.balance.data).isSome = true)) :
    (verify_balance_chain ts opening).1 = [] ↔
      ∀ j, j < ts.length →
        |pyRound2 (chainPrev ts opening j - fieldVal ((ts.getD j default).debit) +
           fieldVal ((ts.getD j default).credit)) -
          fieldVal ((ts.getD j default).balance)| ≤ 1 / 100 :=
  verifyChainAux_nil_iff ts opening 0

/-- Witness for C3 on a concrete two-row chain from opening balance 0. -/
theorem c3_balance_chain_witness :
    (verify_balance_chain c3ts 0).1 = [] ↔
      ∀ j, j < c3ts.length →
        |pyRound2 (chainPrev c3ts 0 j - fieldVal ((c3ts.getD j default).debit) +
           fieldVal ((c3ts.getD j default).credit)) -
          fieldVal ((c3ts.getD j default).balance)| ≤ 1 / 100 :=
  c3_balance_chain c3ts 0 (by decide)

/-! ### C5 -/

/-- C5 counterexample: a row whose debit and credit columns both carry
amounts is emitted by parse_pdf with both fields non-empty, so "exactly
one of debit and credit is non-empty" fails on parse_pdf output. -/
theorem c5_counterexample :
    parse_pdf 15 c5doc = .ok ([(0, c5txn)], (none, none), 1) ∧
    c5txn.debit ≠ "" ∧ c5txn.credit ≠ "" := by
  refine ⟨by rfl, by decide, by decide⟩

/-- C5 amended: for every record emitted by parse_pdf, not all three of
debit, credit and balance are empty, and txn_type is "debit" when debit
is non-empty, else "credit" when credit is non-empty, else empty. -/
theorem c5_exclusive_amount_amended (b : Nat) (doc : PdfDocument)
    (res : List (Nat × Txn) × (Option String × Option String) × Nat)
    (h : parse_pdf b doc = .ok res) (p : Nat × Txn) (hp : p ∈ res.1) :
    ¬(p.2.debit = "" ∧ p.2.credit = "" ∧ p.2.balance = "") ∧
    p.2.txn_type =
      (if p.2.debit ≠ "" then "debit" else if p.2.credit ≠ "" then "credit" else "") := by
  obtain ⟨i, t⟩ := p
  have hmain : res = (((chunksOf b doc.pages).map extract_rows_from_pages).flatten.enum,
      extract_statement_period (firstPageText doc), doc.pages.length) := by
    unfold parse_pdf at h
    split_ifs at h with h0 h1
    all_goals first
      | exact Except.noConfusion h
      | exact (Except.ok.inj h).symm
  subst hmain
  have hp' : (i, t) ∈ ((chunksOf b doc.pages).map extract_rows_from_pages).flatten.enum := hp
  have hp2 : t ∈ ((chunksOf b doc.pages).map extract_rows_from_pages).flatten := by
    rw [List.enum_eq_zip_range] at hp'
    exact (List.of_mem_zip hp').2
  rw [show ((chunksOf b doc.pages).map extract_rows_from_pages).flatten =
      extract_rows_from_pages doc.pages from
    extract_chunksAux b doc.pages.length doc.pages le_rfl] at hp2
  obtain ⟨row, hrow⟩ := mem_extract_imp _ _ hp2
  have spec := processRow_some_spec row t hrow
  exact ⟨spec.2.2.2.2.2.2.1, spec.2.2.2.2.2.2.2⟩

/-- Witness for C5's amended theorem on a concrete one-row document. -/
theorem c5_exclusive_amount_amended_witness :
    ¬(c5wtxn.debit = "" ∧ c5wtxn.credit = "" ∧ c5wtxn.balance = "") ∧
    c5wtxn.txn_type =
      (if c5wtxn.debit ≠ "" then "debit" else if c5wtxn.credit ≠ "" then "credit" else "") :=
  c5_exclusive_amount_amended 15 c5wdoc ([(0, c5wtxn)], (none, none), 1) (by rfl)
    (0, c5wtxn) (by decide)

/-! ### C10 -/

/-- C10: every record emitted by the extraction loop has a non-empty
post_date that passes the strict DD/MM/YYYY check (enforced by the
classifier's date check on column 0), while value_date is only the
stripped column-1 text with no validation — witnessed by a concrete
emitted record whose value_date is not a date. -/
theorem c10_post_date_valid :
    (∀ (pages : List PlumberPage) (t : Txn), t ∈ extract_rows_from_pages pages →
        t.post_date ≠ "" ∧ is_date (some t.post_date) = true) ∧
    (∀ (row : List Cell) (t : Txn), processRow row = some t →
        t.value_date = pyStrip ((row.getD 1 none).getD "")) ∧
    (processRow c10row = some c10txn ∧ is_date (some c10txn.value_date) = false) := by
  refine ⟨?_, fun row t h => (processRow_some_spec row t h).2.1, by decide, by decide⟩
  intro pages t ht
  obtain ⟨row, hrow⟩ := mem_extract_imp pages t ht
  have spec := processRow_some_spec row t hrow
  have hdate := ((is_transaction_row_iff row).mp spec.1).2
  have hpost := spec.2.2.1
  cases hcell : row.getD 0 none with
  | none =>
    rw [hcell] at hdate
    exact absurd hdate (by simp [is_date])
  | some s =>
    rw [hcell] at hdate hpost
    simp only [Option.getD_some] at hpost
    have hs := is_date_strip s hdate
    exact ⟨hpost ▸ hs.1, hpost ▸ hs.2⟩

/-- Witness for C10's universal clause on a concrete emitted record. -/
theorem c10_post_date_valid_witness :
    c10wtxn.post_date ≠ "" ∧ is_date (some c10wtxn.post_date) = true :=
  c10_post_date_valid.1 c10pages c10wtxn (by decide)

/-! ### C9: substring and whitespace-collapse lemmas -/

theorem startsWithL_self_append (u q : List Char) : startsWithL u (u ++ q) = true := by
  induction u with
  | nil => rfl
  | cons a as ih => simp [startsWithL, ih]

theorem containsSub_nil_left (v : List Char) : containsSub [] v = true := by
  induction v with
  | nil => rfl
  | cons c rest ih => simp [containsSub, startsWithL]

theorem containsSub_parts : ∀ (p u q : List Char), containsSub u (p ++ u ++ q) = true := by
  intro p
  induction p with
  | nil =>
    intro u q
    cases u with
    | nil => simpa using containsSub_nil_left q
    | cons a as =>
      have h : ([] : List Char) ++ (a :: as) ++ q = a :: (as ++ q) := by simp
      rw [h]
      simp [containsSub, startsWithL, startsWithL_self_append]
  | cons b p ih =>
    intro u q
    have h : (b :: p) ++ u ++ q = b :: (p ++ u ++ q) := by simp
    rw [h]
    simp only [containsSub, Bool.or_eq_true]
    right
    simpa [List.append_assoc] using ih u q

theorem collapse_cons_not_space (c : Char) (l : List Char) (hc : isSpace c = false) :
    collapse (c :: l) = c :: collapse l := by
  cases l with
  | nil => simp [collapse, hc]
  | cons d cs => simp [collapse, hc]

theorem collapse_append_cons (c : Char) (hc : isSpace c = false) :
    ∀ (xs ys : List Char), collapse (xs ++ c :: ys) = collapse xs ++ collapse (c :: ys)
  | [], ys => by simp [collapse]
  | [x], ys => by
    by_cases hx : isSpace x = true
    · simp [collapse, hx, hc]
    · simp [collapse, hx, hc]
  | x :: x' :: xs, ys => by
    have ih := collapse_append_cons c hc (x' :: xs) ys
    rw [List.cons_append] at ih
    by_cases hx : isSpace x = true <;> by_cases hx' : isSpace x' = true <;>
      simp [collapse, hx, hx', ih]

theorem sub_drop_space_left :
    ∀ (w : List Char), (∀ x ∈ w, isSpace x = true) →
    ∀ (rest : List Char) (c : Char) (t : List Char), isSpace c = false →
    (∃ p q, w ++ rest = p ++ (c :: t) ++ q) → ∃ p q, rest = p ++ (c :: t) ++ q := by
  intro w
  induction w with
  | nil =>
    intro _ rest c t _ h
    simpa using h
  | cons a w ih =>
    intro hw rest c t hc h
    obtain ⟨p, q, hpq⟩ := h
    cases p with
    | nil =>
      simp only [List.nil_append, List.cons_append] at hpq
      have ha : a = c := by
        injection hpq
      have hsp := hw a (List.mem_cons_self a w)
      rw [ha] at hsp
      rw [hsp] at hc
      exact absurd hc (by simp)
    | cons b p' =>
      simp only [List.cons_append, List.cons.injEq] at hpq
      exact ih (fun x hx => hw x (List.mem_cons_of_mem a hx)) rest c t hc
        ⟨p', q, by simpa [List.cons_append, List.append_assoc] using hpq.2⟩

theorem sub_drop_space_right (w : List Char) (hw : ∀ x ∈ w, isSpace x = true)
    (rest : List Char) (init : List Char) (e : Char) (he : isSpace e = false)
    (h : ∃ p q, rest ++ w = p ++ (init ++ [e]) ++ q) :
    ∃ p q, rest = p ++ (init ++ [e]) ++ q := by
  obtain ⟨p, q, hpq⟩ := h
  have h1 : ∃ p2 q2, w.reverse ++ rest.reverse = p2 ++ (e :: init.reverse) ++ q2 := by
    refine ⟨q.reverse, p.reverse, ?_⟩
    have := congrArg List.reverse hpq
    simpa [List.reverse_append] using this
  have h2 := sub_drop_space_left w.reverse
    (fun x hx => hw x (List.mem_reverse.mp hx)) rest.reverse e init.reverse he h1
  obtain ⟨p2, q2, hpq2⟩ := h2
  refine ⟨q2.reverse, p2.reverse, ?_⟩
  have := congrArg List.reverse hpq2
  simpa [List.reverse_append] using this

/-! ### C9: the lines of a description inside its " | "-joined rendering -/

theorem splitCh_ne_nil (sep : Char) (l : List Char) : splitCh sep l ≠ [] := by
  induction l with
  | nil => simp [splitCh]
  | cons c cs ih =>
    simp only [splitCh]
    split_ifs with h
    · simp
    · split <;> simp

theorem replNl_headSplit (d : List Char) :
    ∃ post, replNl d = (splitCh '\n' d).headD [] ++ post := by
  induction d with
  | nil => exact ⟨[], rfl⟩
  | cons c cs ih =>
    by_cases hc : c = '\n'
    · subst hc
      exact ⟨' ' :: '|' :: ' ' :: replNl cs, by simp [replNl, splitCh]⟩
    · obtain ⟨post, hpost⟩ := ih
      cases hsc : splitCh '\n' cs with
      | nil => exact absurd hsc (splitCh_ne_nil '\n' cs)
      | cons l0 ls =>
        rw [hsc] at hpost
        refine ⟨post, ?_⟩
        rw [show splitCh '\n' (c :: cs) = (c :: l0) :: ls from by simp [splitCh, hc, hsc]]
        simp only [List.headD_cons] at hpost ⊢
        simp [replNl, hc, hpost]

theorem replNl_memSplit (d : List Char) :
    ∀ l ∈ splitCh '\n' d, ∃ pre post, replNl d = pre ++ l ++ post := by
  induction d with
  | nil =>
    intro l hl
    simp [splitCh] at hl
    exact ⟨[], [], by simp [hl, replNl]⟩
  | cons c cs ih =>
    intro l hl
    by_cases hc : c = '\n'
    · subst hc
      rw [show splitCh '\n' ('\n' :: cs) = [] :: splitCh '\n' cs from by simp [splitCh]] at hl
      rcases List.mem_cons.mp hl with rfl | hmem
      · exact ⟨[], ' ' :: '|' :: ' ' :: replNl cs, by simp [replNl]⟩
      · obtain ⟨pre, post, h⟩ := ih l hmem
        exact ⟨' ' :: '|' :: ' ' :: pre, post, by simp [replNl, h]⟩
    · cases hsc : splitCh '\n' cs with
      | nil => exact absurd hsc (splitCh_ne_nil '\n' cs)
      | cons l0 ls =>
        rw [show splitCh '\n' (c :: cs) = (c :: l0) :: ls from by simp [splitCh, hc, hsc]] at hl
        rcases List.mem_cons.mp hl with rfl | hmem
        · obtain ⟨post, hpost⟩ := replNl_headSplit cs
          rw [hsc] at hpost
          simp only [List.headD_cons] at hpost
          exact ⟨[], post, by simp [replNl, hc, hpost]⟩
        · obtain ⟨pre, post, h⟩ := ih l (by rw [hsc]; exact List.mem_cons_of_mem l0 hmem)
          exact ⟨c :: pre, post, by simp [replNl, hc, h]⟩

/-! ### C9 claim -/

/-- C9 counterexample: the description "a  b" (one line, an internal
double space) is a non-blank line of itself, yet its stripped text is
not a substring of clean_description "a  b" = "a b" — whitespace
collapse destroys the internal run, refuting the claim as stated. -/
theorem c9_counterexample :
    ("a  b").data ∈ splitCh '\n' ("a  b").data ∧
    stripL ("a  b").data = ("a  b").data ∧
    stripL ("a  b").data ≠ [] ∧
    containsSub (stripL ("a  b").data) ((clean_description "a  b").data) = false := by
  exact ⟨by decide, by decide, by decide, by decide⟩

/-- C9 amended: for every raw description, every non-blank line —
whitespace-collapsed and trimmed — is a contiguous substring of the
cleaned details string produced by clean_description. -/
theorem c9_details_substring_amended (desc : String) :
    ∀ l ∈ splitCh '\n' desc.data, stripL l ≠ [] →
      containsSub (collapse (stripL l)) ((clean_description desc).data) = true := by
  intro l hl hne
  have hdesc : desc ≠ "" := by
    rintro rfl
    simp [splitCh] at hl
    exact hne (by rw [hl]; rfl)
  have hcdesc : (clean_description desc).data = stripL (collapse (replNl desc.data)) := by
    simp [clean_description, hdesc]
  rw [hcdesc]
  obtain ⟨pre, post, hsplit⟩ := replNl_memSplit desc.data l hl
  obtain ⟨w1, w2, hlw, hw1, hw2⟩ := stripL_decomp l
  obtain ⟨ch, ct, hcore⟩ : ∃ c t, stripL l = c :: t := by
    cases hY : stripL l with
    | nil => exact absurd hY hne
    | cons c t => exact ⟨c, t, rfl⟩
  have hch : isSpace ch = false := stripL_head l ch ct hcore
  obtain ⟨ci, ce, hcoreE, hce⟩ : ∃ init e, stripL l = init ++ [e] ∧ isSpace e = false := by
    rcases stripL_last l with hnil | h
    · exact absurd hnil hne
    · exact h
  -- the raw line's core sits inside replNl with whatever surrounds it
  have htotal : replNl desc.data = (pre ++ w1) ++ (stripL l ++ (w2 ++ post)) := by
    rw [hsplit]
    conv_lhs => rw [hlw]
    simp [List.append_assoc]
  -- collapse distributes at the non-space boundaries of the core
  have hA : collapse (replNl desc.data) =
      collapse (pre ++ w1) ++ collapse (stripL l ++ (w2 ++ post)) := by
    rw [htotal]
    rw [show stripL l ++ (w2 ++ post) = ch :: (ct ++ (w2 ++ post)) from by rw [hcore]; simp]
    exact collapse_append_cons ch hch (pre ++ w1) (ct ++ (w2 ++ post))
  have hstrip : collapse (stripL l) = collapse ci ++ [ce] := by
    rw [hcoreE]
    rw [show ci ++ [ce] = ci ++ ce :: ([] : List Char) from rfl]
    rw [collapse_append_cons ce hce ci []]
    simp [collapse, hce]
  have hB : collapse (stripL l ++ (w2 ++ post)) =
      collapse (stripL l) ++ collapse (w2 ++ post) := by
    conv_lhs => rw [hcoreE]
    rw [show (ci ++ [ce]) ++ (w2 ++ post) = ci ++ ce :: (w2 ++ post) from by simp]
    rw [collapse_append_cons ce hce ci (w2 ++ post)]
    rw [collapse_cons_not_space ce (w2 ++ post) hce, hstrip]
    simp
  -- the collapsed core has non-space first and last characters
  obtain ⟨t', hut⟩ : ∃ t', collapse (stripL l) = ch :: t' := by
    rw [hcore, collapse_cons_not_space ch ct hch]
    exact ⟨collapse ct, rfl⟩
  -- the collapsed core sits contiguously inside the collapsed joined text
  have hinf : ∃ p q, collapse (replNl desc.data) = p ++ (ch :: t') ++ q := by
    refine ⟨collapse (pre ++ w1), collapse (w2 ++ post), ?_⟩
    rw [hA, hB, hut]
    simp [List.append_assoc]
  -- stripping the ends cannot remove it
  obtain ⟨s1, s2, hV, hs1, hs2⟩ := stripL_decomp (collapse (replNl desc.data))
  have step0 : ∃ p q, s1 ++ (stripL (collapse (replNl desc.data)) ++ s2) =
      p ++ (ch :: t') ++ q := by
    obtain ⟨p, q, hpq⟩ := hinf
    refine ⟨p, q, ?_⟩
    calc s1 ++ (stripL (collapse (replNl desc.data)) ++ s2)
        = (s1 ++ stripL (collapse (replNl desc.data))) ++ s2 := by
          rw [List.append_assoc]
      _ = collapse (replNl desc.data) := hV.symm
      _ = p ++ (ch :: t') ++ q := hpq
  have step1 := sub_drop_space_left s1 hs1
    (stripL (collapse (replNl desc.data)) ++ s2) ch t' hch step0
  have step1' : ∃ p q, stripL (collapse (replNl desc.data)) ++ s2 =
      p ++ (collapse ci ++ [ce]) ++ q := by
    obtain ⟨p, q, hpq⟩ := step1
    rw [← hut, hstrip] at hpq
    exact ⟨p, q, hpq⟩
  have step2 := sub_drop_space_right s2 hs2
    (stripL (collapse (replNl desc.data))) (collapse ci) ce hce step1'
  rw [hstrip]
  obtain ⟨p, q, hpq⟩ := step2
  rw [hpq]
  exact containsSub_parts p (collapse ci ++ [ce]) q

/-- Witness for C9's amended theorem: the line "ab" of "ab\ncd" appears
in the cleaned description. -/
theorem c9_details_substring_amended_witness :
    containsSub (collapse (stripL ("ab").data)) ((clean_description "ab\ncd").data) = true :=
  c9_details_substring_amended "ab\ncd" ("ab").data (by decide) (by decide)

end SBIStatement
